import Mathlib

/-!
Shallow embedding of the YehagerBet betting backend (`main.py`, `schemas.py`).

Modelling choices, in force throughout:
* Python `float` amounts (balances, odds, stakes) are embedded as `ℚ`.
  Python's `round(x, 2)` is embedded as `round2` below; the `round` on ℚ
  rounds halves up while Python rounds halves to even, but no statement in
  this development evaluates `round2` at an exact half of a cent.
* MongoDB `ObjectId(s)` parsing of a request string is abstracted by
  `ObjectIdStr`: `.valid oid` is a string that parses to the id `oid`,
  `.invalid` one whose parse raises (handler answers 400 "Invalid user id").
* The datastore is a `DB` record of the four collections, plus a counter
  supplying fresh `_id`s.  A handler receives `Option DB` — `none` is the
  "db is None" unavailable condition — and returns its HTTP outcome
  (`Except ApiError resp`) together with the datastore state after the
  request.  `created_at` timestamps are not stored on rows; each collection
  list is kept in insertion order, which is `created_at` order, so the
  Mongo sort by `created_at` descending is embedded as `List.reverse` of
  the filtered rows, and the sort by `start_time` ascending keeps the
  (identically timestamped) seeded matches in insertion order.
* `HTTPException(status_code, detail)` is `ApiError`.
-/

deriving instance DecidableEq for Except

attribute [local semireducible] Rat.add Rat.mul Rat.sub Rat.inv Rat.ofScientific

namespace YehagerBet

/-- Python `round(q, 2)`: round to two decimal places (`Rat.floor` keeps the
definition kernel-evaluable; `round2_eq_round` relates it to `round`). -/
def round2 (q : ℚ) : ℚ := ((Rat.floor (q * 100 + 1/2) : ℤ) : ℚ) / 100

/-- A request-supplied user id string, abstracted by whether `ObjectId(s)`
parses (`valid oid`) or raises (`invalid`). -/
inductive ObjectIdStr where
  | valid (oid : Nat)
  | invalid
deriving DecidableEq, Repr

/-- A row of the `user` collection (`schemas.User` plus its `_id`). -/
structure User where
  id : Nat
  name : String
  phone : String
  balance : ℚ
  is_active : Bool
deriving DecidableEq, Repr

/-- A row of the `match` collection (`schemas.Match`); the `odds` dict is
flattened to its three keys. `start_time` is an abstract timestamp. -/
structure Match where
  sport : String
  league : String
  home_team : String
  away_team : String
  start_time : Nat
  status : String
  odds_home_win : ℚ
  odds_draw : ℚ
  odds_away_win : ℚ
deriving DecidableEq, Repr

/-- One leg of a bet (`schemas.BetSelection` / the request model). -/
structure BetSelection where
  match_id : String
  market : String
  odds : ℚ
  description : String
deriving DecidableEq, Repr

/-- A row of the `bet` collection (`schemas.Bet` plus its `_id`). -/
structure Bet where
  id : Nat
  user_id : Nat
  stake : ℚ
  selections : List BetSelection
  potential_return : ℚ
  status : String
deriving DecidableEq, Repr

/-- A row of the `wallettransaction` collection.  `reference` holds the
associated bet's id (`str(bet_id)` in the source) or `None`. -/
structure WalletTransaction where
  user_id : Nat
  type : String
  amount : ℚ
  balance_after : ℚ
  reference : Option Nat
deriving DecidableEq, Repr

/-- The datastore: the four collections, each in insertion (= `created_at`)
order, and the counter from which Mongo-assigned `_id`s are drawn. -/
structure DB where
  users : List User
  «matches» : List Match
  bets : List Bet
  txs : List WalletTransaction
  nextId : Nat
deriving DecidableEq, Repr

/-- `HTTPException(status_code, detail)`. -/
structure ApiError where
  status : Nat
  detail : String
deriving DecidableEq, Repr

/-- `HTTPException(500, "Database not available")`, raised first by every
handler that touches the datastore. -/
def dbUnavailable : ApiError := ⟨500, "Database not available"⟩

/-- `db["user"].find_one({"_id": oid})`. -/
def findUser (db : DB) (oid : Nat) : Option User :=
  db.users.find? (fun u => u.id = oid)

/-- `db["user"].update_one({"_id": oid}, {"$set": {"balance": b, ...}})`. -/
def setBalance (db : DB) (oid : Nat) (b : ℚ) : DB :=
  { db with users := db.users.map (fun u => if u.id = oid then { u with balance := b } else u) }

/-- The `{user_id, name, phone, balance}` response shape shared by
register, login and get-user. -/
structure UserResp where
  user_id : Nat
  name : String
  phone : String
  balance : ℚ
deriving DecidableEq, Repr

/-- `POST /api/users/register` (`register_user` in `main.py`). -/
def register_user (dbc : Option DB) (name phone : String) :
    Except ApiError UserResp × Option DB :=
  match dbc with
  | none => (.error dbUnavailable, none)
  | some db =>
    match db.users.find? (fun u => u.phone = phone) with
    | some _ => (.error ⟨400, "Phone already registered"⟩, some db)
    | none =>
      let uid := db.nextId
      (.ok ⟨uid, name, phone, 0⟩,
       some { db with users := db.users ++ [⟨uid, name, phone, 0, true⟩],
                      nextId := uid + 1 })

/-- `POST /api/users/login` (`login_user`). -/
def login_user (dbc : Option DB) (phone : String) :
    Except ApiError UserResp × Option DB :=
  match dbc with
  | none => (.error dbUnavailable, none)
  | some db =>
    match db.users.find? (fun u => u.phone = phone) with
    | none => (.error ⟨404, "User not found"⟩, some db)
    | some u => (.ok ⟨u.id, u.name, u.phone, u.balance⟩, some db)

/-- `GET /api/users/{user_id}` (`get_user`). -/
def get_user (dbc : Option DB) (user_id : ObjectIdStr) :
    Except ApiError UserResp × Option DB :=
  match dbc with
  | none => (.error dbUnavailable, none)
  | some db =>
    match user_id with
    | .invalid => (.error ⟨400, "Invalid user id"⟩, some db)
    | .valid oid =>
      match findUser db oid with
      | none => (.error ⟨404, "User not found"⟩, some db)
      | some u => (.ok ⟨u.id, u.name, u.phone, u.balance⟩, some db)

/-- `POST /api/wallet/topup` (`topup_wallet`).  The pydantic constraint
`amount > 0` is a hypothesis of the theorems that need it. -/
def topup_wallet (dbc : Option DB) (user_id : ObjectIdStr) (amount : ℚ) :
    Except ApiError ℚ × Option DB :=
  match dbc with
  | none => (.error dbUnavailable, none)
  | some db =>
    match user_id with
    | .invalid => (.error ⟨400, "Invalid user id"⟩, some db)
    | .valid oid =>
      match findUser db oid with
      | none => (.error ⟨404, "User not found"⟩, some db)
      | some user =>
        let new_balance := user.balance + amount
        (.ok new_balance,
         some { setBalance db oid new_balance with
                txs := db.txs ++ [⟨oid, "topup", amount, new_balance, none⟩] })

/-- MongoDB cursor `.limit(n)` semantics (external library behavior):
`0` means no limit, a nonzero `n` caps the result at `|n|` documents. -/
def cursorLimit (n : Int) (xs : List α) : List α :=
  if n = 0 then xs else xs.take n.natAbs

/-- `GET /api/wallet/transactions` (`list_transactions`): the user's rows,
`created_at` descending, capped by the Mongo limit. -/
def list_transactions (dbc : Option DB) (user_id : Nat) (limit : Int) :
    Except ApiError (List WalletTransaction) × Option DB :=
  match dbc with
  | none => (.error dbUnavailable, none)
  | some db =>
    (.ok (cursorLimit limit ((db.txs.filter (fun t => t.user_id = user_id)).reverse)),
     some db)

/-- `GET /api/matches` (`list_matches`): all matches, `start_time`
ascending (insertion order is kept in the embedding; every path that
creates matches timestamps them identically). -/
def list_matches (dbc : Option DB) :
    Except ApiError (List Match) × Option DB :=
  match dbc with
  | none => (.error dbUnavailable, none)
  | some db => (.ok db.«matches», some db)

/-- `GET /api/bets` (`list_bets`): the user's bets, `created_at` descending. -/
def list_bets (dbc : Option DB) (user_id : Nat) :
    Except ApiError (List Bet) × Option DB :=
  match dbc with
  | none => (.error dbUnavailable, none)
  | some db =>
    (.ok ((db.bets.filter (fun b => b.user_id = user_id)).reverse), some db)

/-- The `for s in payload.selections` loop of `place_bet`: multiply the
accumulator by each selection's odds left to right, raising (`none`) at
the first selection whose odds are ≤ 1.0. -/
def totalOddsLoop : ℚ → List BetSelection → Option ℚ
  | acc, [] => some acc
  | acc, s :: rest => if s.odds ≤ 1 then none else totalOddsLoop (acc * s.odds) rest

/-- The `{bet_id, potential_return, balance}` response of `place_bet`. -/
structure PlaceBetResp where
  bet_id : Nat
  potential_return : ℚ
  balance : ℚ
deriving DecidableEq, Repr

/-- `POST /api/bets` (`place_bet`).  The pydantic constraint `stake > 0`
is a hypothesis of the theorems that need it. -/
def place_bet (dbc : Option DB) (user_id : ObjectIdStr) (stake : ℚ)
    (selections : List BetSelection) :
    Except ApiError PlaceBetResp × Option DB :=
  match dbc with
  | none => (.error dbUnavailable, none)
  | some db =>
    match user_id with
    | .invalid => (.error ⟨400, "Invalid user id"⟩, some db)
    | .valid oid =>
      match findUser db oid with
      | none => (.error ⟨404, "User not found"⟩, some db)
      | some user =>
        if selections.isEmpty then (.error ⟨400, "No selections provided"⟩, some db)
        else
          match totalOddsLoop 1 selections with
          | none => (.error ⟨400, "Invalid odds in selection"⟩, some db)
          | some total_odds =>
            let potential_return := round2 (stake * total_odds)
            if user.balance < stake then (.error ⟨400, "Insufficient balance"⟩, some db)
            else
              let new_balance := round2 (user.balance - stake)
              let bet_id := db.nextId
              (.ok ⟨bet_id, potential_return, new_balance⟩,
               some { setBalance db oid new_balance with
                      bets := db.bets ++
                        [⟨bet_id, oid, stake, selections, potential_return, "pending"⟩],
                      nextId := bet_id + 1,
                      txs := db.txs ++
                        [⟨oid, "bet_place", -stake, new_balance, some bet_id⟩] })

/-- The three fixed sample matches of `seed_matches`, timestamped `now`. -/
def sampleMatches (now : Nat) : List Match :=
  [ ⟨"football", "Ethiopian Premier League", "Saint George", "Buna",
      now, "scheduled", 185/100, 32/10, 39/10⟩,
    ⟨"football", "Ethiopian Premier League", "Fasil Kenema", "Wolaita Dicha",
      now, "scheduled", 21/10, 3, 34/10⟩,
    ⟨"basketball", "Ethiopia Cup", "Addis Lions", "Hawassa Hawks",
      now, "scheduled", 17/10, 0, 22/10⟩ ]

/-- Startup seeding (`seed_matches`): a no-op when the datastore is
unavailable or the `match` collection is nonempty, otherwise inserts the
three fixed sample matches. -/
def seed_matches (dbc : Option DB) (now : Nat) : Option DB :=
  match dbc with
  | none => none
  | some db =>
    if 0 < db.«matches».length then some db
    else some { db with «matches» := db.«matches» ++ sampleMatches now }

/-- One balance-affecting wallet operation, as issued over the API. -/
inductive Op where
  | topup (uid : ObjectIdStr) (amount : ℚ)
  | placeBet (uid : ObjectIdStr) (stake : ℚ) (sels : List BetSelection)
deriving DecidableEq, Repr

/-- Run one operation against the (available) datastore, keeping the
state the handler leaves behind. -/
def applyOp (db : DB) : Op → DB
  | .topup uid amt => ((topup_wallet (some db) uid amt).2).getD db
  | .placeBet uid st sels => ((place_bet (some db) uid st sels).2).getD db

/-- Run a sequence of wallet operations left to right. -/
def applyOps (db : DB) : List Op → DB
  | [] => db
  | op :: rest => applyOps (applyOp db op) rest

/-- Sum of the signed `amount` fields of the user's ledger rows. -/
def txSum (txs : List WalletTransaction) (uid : Nat) : ℚ :=
  ((txs.filter (fun t => t.user_id = uid)).map WalletTransaction.amount).sum

/-- `q` is a whole number of cents (an integer multiple of 0.01). -/
abbrev cent (q : ℚ) : Prop := (q * 100).den = 1

/-- Every stored balance equals the sum of the signed amounts of that
user's ledger rows, and is a whole number of cents. -/
def LedgerInv (db : DB) : Prop :=
  ∀ u ∈ db.users, u.balance = txSum db.txs u.id ∧ cent u.balance

instance (db : DB) : Decidable (LedgerInv db) :=
  inferInstanceAs (Decidable (∀ u ∈ db.users, _ ∧ _))

/-- The operation's monetary argument is a whole number of cents. -/
def opCent : Op → Prop
  | .topup _ a => cent a
  | .placeBet _ s _ => cent s

instance (op : Op) : Decidable (opCent op) :=
  match op with
  | .topup _ a => inferInstanceAs (Decidable (cent a))
  | .placeBet _ s _ => inferInstanceAs (Decidable (cent s))

/-- A one-user datastore, as left by a fresh registration. -/
def freshDB : DB := ⟨[⟨1, "a", "p", 0, true⟩], [], [], [], 2⟩

/-- Sample selection legs used in concrete instantiations. -/
def selA : BetSelection := ⟨"m1", "home_win", 2, "legA"⟩

def selB : BetSelection := ⟨"m2", "draw", 3/2, "legB"⟩

def selBad : BetSelection := ⟨"m3", "away_win", 1, "legBad"⟩

/-! ### Helper lemmas -/

/-- `round2` is Python `round(·, 2)` phrased through Mathlib's `round`. -/
theorem round2_eq_round (q : ℚ) : round2 q = ((round (q * 100) : ℤ) : ℚ) / 100 := by
  rw [round2, round_eq, Rat.floor_def]
  norm_num [Rat.floor_def']

theorem cent_exists {q : ℚ} (h : cent q) : ∃ n : ℤ, q * 100 = (n : ℚ) :=
  ⟨(q * 100).num, ((Rat.den_eq_one_iff _).mp h).symm⟩

theorem cent_of_eq_int {q : ℚ} {n : ℤ} (h : q * 100 = (n : ℚ)) : cent q := by
  show (q * 100).den = 1
  rw [h]
  exact Rat.den_intCast n

theorem cent_add {a b : ℚ} (ha : cent a) (hb : cent b) : cent (a + b) := by
  obtain ⟨m, hm⟩ := cent_exists ha
  obtain ⟨n, hn⟩ := cent_exists hb
  refine cent_of_eq_int (n := m + n) ?_
  push_cast
  rw [add_mul, hm, hn]

theorem cent_neg {a : ℚ} (ha : cent a) : cent (-a) := by
  obtain ⟨m, hm⟩ := cent_exists ha
  refine cent_of_eq_int (n := -m) ?_
  push_cast
  rw [neg_mul, hm]

theorem cent_sub {a b : ℚ} (ha : cent a) (hb : cent b) : cent (a - b) := by
  rw [sub_eq_add_neg]
  exact cent_add ha (cent_neg hb)

/-- On a whole number of cents, rounding to two decimals is the identity. -/
theorem round2_cent {q : ℚ} (h : cent q) : round2 q = q := by
  obtain ⟨n, hn⟩ := cent_exists h
  have hq : q = (n : ℚ) / 100 := by
    rw [eq_div_iff (by norm_num : (100 : ℚ) ≠ 0)]
    exact hn
  rw [round2_eq_round, hn, round_intCast, ← hq]

/-- The odds loop multiplies all odds when every leg's odds exceed 1. -/
theorem totalOddsLoop_all (sels : List BetSelection)
    (h : ∀ s ∈ sels, 1 < s.odds) (acc : ℚ) :
    totalOddsLoop acc sels = some (acc * (sels.map BetSelection.odds).prod) := by
  induction sels generalizing acc with
  | nil => simp [totalOddsLoop]
  | cons s rest ih =>
    have hs : ¬s.odds ≤ 1 := not_le.mpr (h s (by simp))
    simp only [totalOddsLoop, if_neg hs, ih (fun x hx => h x (by simp [hx])),
      List.map_cons, List.prod_cons, mul_assoc]

/-- If the odds loop completes, every leg's odds exceed 1. -/
theorem totalOddsLoop_some_all {sels : List BetSelection} {acc t : ℚ}
    (h : totalOddsLoop acc sels = some t) : ∀ s ∈ sels, 1 < s.odds := by
  induction sels generalizing acc with
  | nil => simp
  | cons s rest ih =>
    rw [totalOddsLoop] at h
    split at h
    · exact absurd h (by simp)
    · next hs =>
      intro x hx
      rcases List.mem_cons.mp hx with rfl | hx'
      · exact not_le.mp hs
      · exact ih h x hx'

/-- The odds loop raises at the first leg with odds ≤ 1, whatever follows. -/
theorem totalOddsLoop_stop (pre : List BetSelection) (bad : BetSelection)
    (post : List BetSelection) (hpre : ∀ s ∈ pre, 1 < s.odds)
    (hbad : bad.odds ≤ 1) (acc : ℚ) :
    totalOddsLoop acc (pre ++ bad :: post) = none := by
  induction pre generalizing acc with
  | nil => simp [totalOddsLoop, hbad]
  | cons s rest ih =>
    have hs : ¬s.odds ≤ 1 := not_le.mpr (hpre s (by simp))
    simp only [List.cons_append, totalOddsLoop, if_neg hs]
    exact ih (fun x hx => hpre x (by simp [hx])) _

/-- The successful path of `topup_wallet`, as one equation. -/
theorem topup_ok (db : DB) (oid : Nat) (u : User) (amt : ℚ)
    (hu : findUser db oid = some u) :
    topup_wallet (some db) (.valid oid) amt =
      (.ok (u.balance + amt),
       some { setBalance db oid (u.balance + amt) with
              txs := db.txs ++ [⟨oid, "topup", amt, u.balance + amt, none⟩] }) := by
  simp only [topup_wallet, hu]

/-- The successful path of `place_bet`, as one equation. -/
theorem place_bet_ok (db : DB) (oid : Nat) (u : User) (stake : ℚ)
    (sels : List BetSelection) (hu : findUser db oid = some u) (hne : sels ≠ [])
    (hodds : ∀ s ∈ sels, 1 < s.odds) (hbal : ¬u.balance < stake) :
    place_bet (some db) (.valid oid) stake sels =
      (.ok ⟨db.nextId, round2 (stake * (sels.map BetSelection.odds).prod),
            round2 (u.balance - stake)⟩,
       some { setBalance db oid (round2 (u.balance - stake)) with
              bets := db.bets ++ [⟨db.nextId, oid, stake, sels,
                round2 (stake * (sels.map BetSelection.odds).prod), "pending"⟩],
              nextId := db.nextId + 1,
              txs := db.txs ++ [⟨oid, "bet_place", -stake,
                round2 (u.balance - stake), some db.nextId⟩] }) := by
  have hisE : sels.isEmpty = false := by
    cases sels with
    | nil => exact absurd rfl hne
    | cons a l => rfl
  simp only [place_bet, hu, hisE, Bool.false_eq_true, if_false,
    totalOddsLoop_all sels hodds 1, one_mul, if_neg hbal]

/-- Either `place_bet` leaves the datastore unchanged, or every success
condition held. -/
theorem place_bet_snd (db : DB) (uid : ObjectIdStr) (stake : ℚ)
    (sels : List BetSelection) :
    (place_bet (some db) uid stake sels).2 = some db ∨
    ∃ oid u, uid = ObjectIdStr.valid oid ∧ findUser db oid = some u ∧
      sels ≠ [] ∧ (∀ s ∈ sels, 1 < s.odds) ∧ ¬u.balance < stake := by
  cases uid with
  | invalid => exact .inl rfl
  | valid oid =>
    cases hu : findUser db oid with
    | none => exact .inl (by simp [place_bet, hu])
    | some u =>
      cases hisE : sels.isEmpty with
      | true => exact .inl (by simp [place_bet, hu, hisE])
      | false =>
        cases hloop : totalOddsLoop 1 sels with
        | none => exact .inl (by simp [place_bet, hu, hisE, hloop])
        | some t =>
          by_cases hbal : u.balance < stake
          · exact .inl (by simp [place_bet, hu, hisE, hloop, hbal])
          · exact .inr ⟨oid, u, rfl, hu, by cases sels <;> simp_all,
              totalOddsLoop_some_all hloop, hbal⟩

/-- `find_one` on a balance-updated user collection. -/
theorem findUser_setBalance (db : DB) (oid : Nat) (b : ℚ) :
    findUser (setBalance db oid b) oid =
      (findUser db oid).map (fun u => { u with balance := b }) := by
  have key : ∀ l : List User,
      (l.map (fun u => if u.id = oid then { u with balance := b } else u)).find?
          (fun u => decide (u.id = oid)) =
        (l.find? (fun u => decide (u.id = oid))).map
          (fun u => { u with balance := b }) := by
    intro l
    induction l with
    | nil => rfl
    | cons u rest ih =>
      by_cases h : u.id = oid
      · simp [List.find?_cons, h]
      · simp [List.find?_cons, h, ih]
  simpa [findUser, setBalance] using key db.users

/-- Appending one ledger row adds its amount to the owner's sum only. -/
theorem txSum_append (txs : List WalletTransaction) (tx : WalletTransaction)
    (uid : Nat) :
    txSum (txs ++ [tx]) uid =
      txSum txs uid + (if tx.user_id = uid then tx.amount else 0) := by
  simp only [txSum, List.filter_append]
  by_cases h : tx.user_id = uid <;> simp [h]

/-- The shared shape of a successful balance mutation: set the found
user's balance to `u.balance + amt` (cent-valued) and append one ledger
row for `oid` of amount `amt`.  It preserves `LedgerInv`. -/
theorem LedgerInv_update (db : DB) (oid : Nat) (u : User) (amt nb : ℚ)
    (hu : findUser db oid = some u) (hinv : LedgerInv db)
    (hnb : nb = u.balance + amt) (hcent : cent nb)
    (db' : DB) (hus : db'.users = (setBalance db oid nb).users)
    (ty : String) (ba : ℚ) (r : Option Nat)
    (htxs : db'.txs = db.txs ++ [⟨oid, ty, amt, ba, r⟩]) :
    LedgerInv db' := by
  have humem : u ∈ db.users := List.mem_of_find?_eq_some hu
  have huid : u.id = oid := by simpa using List.find?_some hu
  have hub := hinv u humem
  intro v hv
  rw [hus] at hv
  simp only [setBalance, List.mem_map] at hv
  obtain ⟨w, hw, rfl⟩ := hv
  have hfw := hinv w hw
  by_cases h : w.id = oid
  · simp only [if_pos h]
    refine ⟨?_, hcent⟩
    rw [htxs, txSum_append]
    show nb = txSum db.txs w.id + if oid = w.id then amt else 0
    rw [h, if_pos rfl, hnb, hub.1, huid]
  · simp only [if_neg h]
    refine ⟨?_, hfw.2⟩
    rw [htxs, txSum_append]
    show w.balance = txSum db.txs w.id + if oid = w.id then amt else 0
    rw [if_neg (fun hh : oid = w.id => h hh.symm), add_zero]
    exact hfw.1

/-- One wallet operation with a cent-valued amount preserves `LedgerInv`. -/
theorem applyOp_inv (db : DB) (op : Op) (hinv : LedgerInv db)
    (hc : opCent op) : LedgerInv (applyOp db op) := by
  cases op with
  | topup uid amt =>
    cases uid with
    | invalid => exact hinv
    | valid oid =>
      cases hu : findUser db oid with
      | none => simpa [applyOp, topup_wallet, hu] using hinv
      | some u =>
        have heq := topup_ok db oid u amt hu
        have hub := hinv u (List.mem_of_find?_eq_some hu)
        simp only [applyOp, heq, Option.getD_some]
        exact LedgerInv_update db oid u amt (u.balance + amt) hu hinv rfl
          (cent_add hub.2 hc) _ rfl _ _ _ rfl
  | placeBet uid stake sels =>
    rcases place_bet_snd db uid stake sels with hsame | ⟨oid, u, rfl, hu, hne, hodds, hbal⟩
    · simpa [applyOp, hsame] using hinv
    · have heq := place_bet_ok db oid u stake sels hu hne hodds hbal
      have hub := hinv u (List.mem_of_find?_eq_some hu)
      have hcs : cent (u.balance - stake) := cent_sub hub.2 hc
      have hr : round2 (u.balance - stake) = u.balance + (-stake) := by
        rw [round2_cent hcs]
        ring
      simp only [applyOp, heq, Option.getD_some]
      exact LedgerInv_update db oid u (-stake) (round2 (u.balance - stake)) hu hinv hr
        (hr ▸ cent_add hub.2 (cent_neg hc)) _ rfl _ _ _ rfl

/-- Any sequence of cent-valued wallet operations preserves `LedgerInv`. -/
theorem applyOps_inv (db : DB) (ops : List Op) (hinv : LedgerInv db)
    (hc : ∀ op ∈ ops, opCent op) : LedgerInv (applyOps db ops) := by
  induction ops generalizing db with
  | nil => exact hinv
  | cons op rest ih =>
    exact ih (applyOp db op) (applyOp_inv db op hinv (hc op (by simp)))
      (fun x hx => hc x (by simp [hx]))

/-! ### Claims -/

/-- C1 (counterexample): starting from a fresh balance-0 user, the
successful sequence TopUp 10 then PlaceBet with stake 9.994 (one leg of
odds 2) leaves a stored balance (0.01, because `place_bet` rounds the
new balance to 2 decimals) that differs from the sum of the user's
signed transaction amounts (10 − 9.994 = 0.006). -/
theorem ledger_sum_counterexample :
    (topup_wallet (some freshDB) (.valid 1) 10).1 = .ok 10 ∧
    (place_bet (some (applyOp freshDB (.topup (.valid 1) 10))) (.valid 1)
        (9994/1000) [selA]).1 = .ok ⟨2, 1999/100, 1/100⟩ ∧
    ¬ ∀ u ∈ (applyOps freshDB
          [.topup (.valid 1) 10, .placeBet (.valid 1) (9994/1000) [selA]]).users,
        u.balance = txSum (applyOps freshDB
          [.topup (.valid 1) 10, .placeBet (.valid 1) (9994/1000) [selA]]).txs u.id := by
  refine ⟨by decide, by decide, by decide⟩

/-- C1 (amended): for every user, after any sequence of successful TopUp
and PlaceBet operations starting from a state whose balances match the
ledger (e.g. right after registration, balance 0 and no rows), the
stored balance equals the sum of the user's signed transaction amounts,
provided every top-up amount and stake is a whole number of cents. -/
theorem ledger_sum_of_cent_ops (db : DB) (ops : List Op)
    (hinv : LedgerInv db) (hc : ∀ op ∈ ops, opCent op) :
    ∀ u ∈ (applyOps db ops).users,
      u.balance = txSum (applyOps db ops).txs u.id :=
  fun u hu => (applyOps_inv db ops hinv hc u hu).1

/-- C1 (witness): the amended claim at the fresh one-user datastore,
after TopUp 50 and a stake-20 bet: the final balance 30 is the ledger sum. -/
theorem ledger_sum_of_cent_ops_witness :
    (30 : ℚ) = txSum (applyOps freshDB
      [.topup (.valid 1) 50, .placeBet (.valid 1) 20 [selA]]).txs 1 :=
  ledger_sum_of_cent_ops freshDB [.topup (.valid 1) 50, .placeBet (.valid 1) 20 [selA]]
    (by decide) (by decide) ⟨1, "a", "p", 30, true⟩ (by decide)

/-- C2: every PlaceBet request that fails (invalid id, absent user, empty
selections, bad odds, or insufficient balance) leaves the datastore
exactly as it was: balance untouched, no Bet row, no WalletTransaction row. -/
theorem place_bet_error_no_side_effects (db : DB) (uid : ObjectIdStr)
    (stake : ℚ) (sels : List BetSelection) (e : ApiError)
    (h : (place_bet (some db) uid stake sels).1 = .error e) :
    (place_bet (some db) uid stake sels).2 = some db := by
  rcases place_bet_snd db uid stake sels with hsame | ⟨oid, u, rfl, hu, hne, hodds, hbal⟩
  · exact hsame
  · rw [place_bet_ok db oid u stake sels hu hne hodds hbal] at h
    exact absurd h (by simp)

/-- C2 (witness): a malformed user id fails and leaves the state unchanged. -/
theorem place_bet_error_no_side_effects_witness :
    (place_bet (some freshDB) .invalid 5 [selA]).2 = some freshDB :=
  place_bet_error_no_side_effects freshDB .invalid 5 [selA]
    ⟨400, "Invalid user id"⟩ (by decide)

/-- C3: a successful PlaceBet with stake `s > 0` and non-empty selections
all of odds > 1 returns and stores `potential_return =
round(s × product of the odds, 2)`. -/
theorem place_bet_potential_return (db : DB) (oid : Nat) (u : User)
    (stake : ℚ) (sels : List BetSelection) (hstake : 0 < stake)
    (hne : sels ≠ []) (hodds : ∀ s ∈ sels, 1 < s.odds)
    (hu : findUser db oid = some u) (hbal : ¬u.balance < stake) :
    (place_bet (some db) (.valid oid) stake sels).1 =
      .ok ⟨db.nextId, round2 (stake * (sels.map BetSelection.odds).prod),
           round2 (u.balance - stake)⟩ ∧
    ∃ db', (place_bet (some db) (.valid oid) stake sels).2 = some db' ∧
      db'.bets.map Bet.potential_return =
        db.bets.map Bet.potential_return ++
          [round2 (stake * (sels.map BetSelection.odds).prod)] := by
  have heq := place_bet_ok db oid u stake sels hu hne hodds hbal
  constructor
  · rw [heq]
  · exact ⟨_, by rw [heq], by simp⟩

/-- C3 (witness): selections of odds [2.0, 1.5] with stake 10 against a
balance-10 user yield potential_return 30.0. -/
theorem place_bet_potential_return_witness :
    (place_bet (some ⟨[⟨1, "a", "p", 10, true⟩], [], [], [], 2⟩) (.valid 1) 10
      [selA, selB]).1 = .ok ⟨2, 30, 0⟩ :=
  (place_bet_potential_return ⟨[⟨1, "a", "p", 10, true⟩], [], [], [], 2⟩ 1
    ⟨1, "a", "p", 10, true⟩ 10 [selA, selB] (by decide) (by decide) (by decide)
    (by decide) (by decide)).1.trans (by decide)

/-- C4: when an existing user's selections are `pre ++ bad :: post` with
every leg of `pre` of odds > 1 and `bad.odds ≤ 1`, PlaceBet fails
BadRequest "Invalid odds in selection" with no state change, and the
outcome is the same whatever follows `bad` — validation and accumulation
run together left to right and stop at the first invalid leg. -/
theorem place_bet_invalid_odds_short_circuit (db : DB) (oid : Nat) (u : User)
    (stake : ℚ) (pre : List BetSelection) (bad : BetSelection)
    (post : List BetSelection) (hu : findUser db oid = some u)
    (hpre : ∀ s ∈ pre, 1 < s.odds) (hbad : bad.odds ≤ 1) :
    place_bet (some db) (.valid oid) stake (pre ++ bad :: post) =
      (.error ⟨400, "Invalid odds in selection"⟩, some db) ∧
    ∀ post', place_bet (some db) (.valid oid) stake (pre ++ bad :: post') =
      place_bet (some db) (.valid oid) stake (pre ++ bad :: post) := by
  have key : ∀ q : List BetSelection,
      place_bet (some db) (.valid oid) stake (pre ++ bad :: q) =
        (.error ⟨400, "Invalid odds in selection"⟩, some db) := by
    intro q
    have hisE : (pre ++ bad :: q).isEmpty = false := by cases pre <;> rfl
    simp only [place_bet, hu, hisE, Bool.false_eq_true, if_false,
      totalOddsLoop_stop pre bad q hpre hbad 1]
  exact ⟨key post, fun post' => (key post').trans (key post).symm⟩

/-- C4 (witness): one valid leg, then a leg of odds 1: the request fails
with the invalid-odds error and the state is unchanged. -/
theorem place_bet_invalid_odds_short_circuit_witness :
    place_bet (some freshDB) (.valid 1) 5 [selA, selBad, selB] =
      (.error ⟨400, "Invalid odds in selection"⟩, some freshDB) :=
  (place_bet_invalid_odds_short_circuit freshDB 1 ⟨1, "a", "p", 0, true⟩ 5
    [selA] selBad [selB] (by decide) (by decide) (by decide)).1

/-- C5: TopUp with amount > 0 on an existing user of balance `b` sets the
balance to `b + amount` (no rounding), appends exactly one
WalletTransaction {type topup, amount +amount, balance_after `b +
amount`, reference null}, and returns the new balance. -/
theorem topup_spec (db : DB) (oid : Nat) (u : User) (amt : ℚ)
    (hamt : 0 < amt) (hu : findUser db oid = some u) :
    topup_wallet (some db) (.valid oid) amt =
      (.ok (u.balance + amt),
       some { setBalance db oid (u.balance + amt) with
              txs := db.txs ++ [⟨oid, "topup", amt, u.balance + amt, none⟩] }) :=
  topup_ok db oid u amt hu

/-- C5 (witness): the second of two top-ups (50 then 25) on a fresh
balance-0 user: balance 75, ledger `balance_after` values 50 then 75. -/
theorem topup_spec_witness :
    topup_wallet (some ⟨[⟨1, "a", "p", 50, true⟩], [], [],
        [⟨1, "topup", 50, 50, none⟩], 2⟩) (.valid 1) 25 =
      (.ok 75, some ⟨[⟨1, "a", "p", 75, true⟩], [], [],
        [⟨1, "topup", 50, 50, none⟩, ⟨1, "topup", 25, 75, none⟩], 2⟩) :=
  (topup_spec ⟨[⟨1, "a", "p", 50, true⟩], [], [], [⟨1, "topup", 50, 50, none⟩], 2⟩
    1 ⟨1, "a", "p", 50, true⟩ 25 (by decide) (by decide)).trans (by decide)

/-- C6: Register fails 400 "Phone already registered" (the Conflict of the
spec's taxonomy) exactly when some user already holds the phone;
otherwise it inserts a balance-0 active user and returns
{user_id, name, phone, balance}. -/
theorem register_spec (db : DB) (name phone : String) :
    ((∃ u ∈ db.users, u.phone = phone) →
      register_user (some db) name phone =
        (.error ⟨400, "Phone already registered"⟩, some db)) ∧
    ((∀ u ∈ db.users, u.phone ≠ phone) →
      register_user (some db) name phone =
        (.ok ⟨db.nextId, name, phone, 0⟩,
         some { db with users := db.users ++ [⟨db.nextId, name, phone, 0, true⟩],
                        nextId := db.nextId + 1 })) := by
  constructor
  · rintro ⟨u0, hu0, hph⟩
    have hsome : (db.users.find? (fun u => u.phone = phone)).isSome := by
      rw [List.find?_isSome]
      exact ⟨u0, hu0, by simp [hph]⟩
    cases hf : db.users.find? (fun u => u.phone = phone) with
    | none => rw [hf] at hsome; exact absurd hsome (by simp)
    | some w => simp [register_user, hf]
  · intro h
    have hf : db.users.find? (fun u => u.phone = phone) = none :=
      List.find?_eq_none.mpr (fun u hu => by simp [h u hu])
    simp [register_user, hf]

/-- C6 (witness): registering phone "0911" twice — the first succeeds with
balance 0, the second fails with the duplicate-phone error. -/
theorem register_spec_witness :
    register_user (some ⟨[], [], [], [], 1⟩) "A" "0911" =
      (.ok ⟨1, "A", "0911", 0⟩,
       some ⟨[⟨1, "A", "0911", 0, true⟩], [], [], [], 2⟩) ∧
    register_user (some ⟨[⟨1, "A", "0911", 0, true⟩], [], [], [], 2⟩) "B" "0911" =
      (.error ⟨400, "Phone already registered"⟩,
       some ⟨[⟨1, "A", "0911", 0, true⟩], [], [], [], 2⟩) :=
  ⟨((register_spec ⟨[], [], [], [], 1⟩ "A" "0911").2 (by decide)).trans (by decide),
   (register_spec ⟨[⟨1, "A", "0911", 0, true⟩], [], [], [], 2⟩ "B" "0911").1
     (by decide)⟩

/-- C7: seeding inserts the three fixed sample matches (football,
football, basketball — all "scheduled") exactly when the match collection
is empty, and inserts nothing when it is not. -/
theorem seed_matches_spec (db : DB) (now : Nat) :
    (db.«matches» = [] →
      seed_matches (some db) now = some { db with «matches» := sampleMatches now } ∧
      (sampleMatches now).length = 3 ∧
      (sampleMatches now).map Match.sport = ["football", "football", "basketball"] ∧
      ∀ m ∈ sampleMatches now, m.status = "scheduled") ∧
    (db.«matches» ≠ [] → seed_matches (some db) now = some db) := by
  constructor
  · intro h
    refine ⟨?_, by simp [sampleMatches], by simp [sampleMatches], ?_⟩
    · simp [seed_matches, h]
    · intro m hm
      simp only [sampleMatches, List.mem_cons, List.not_mem_nil, or_false] at hm
      rcases hm with rfl | rfl | rfl <;> rfl
  · intro h
    simp [seed_matches, List.length_pos.mpr h]

/-- C7 (witness): seeding an empty collection inserts the three samples;
running it again against the now non-empty collection inserts nothing. -/
theorem seed_matches_spec_witness :
    seed_matches (some ⟨[], [], [], [], 1⟩) 0 =
      some ⟨[], sampleMatches 0, [], [], 1⟩ ∧
    seed_matches (some ⟨[], sampleMatches 0, [], [], 1⟩) 0 =
      some ⟨[], sampleMatches 0, [], [], 1⟩ :=
  ⟨((seed_matches_spec ⟨[], [], [], [], 1⟩ 0).1 rfl).1,
   (seed_matches_spec ⟨[], sampleMatches 0, [], [], 1⟩ 0).2 (by decide)⟩

/-- C8: with the datastore unavailable (`db is None`), every handler that
touches it answers the 500 "Database not available" error before any
other validation or datastore operation, and no state exists to change. -/
theorem db_unavailable_short_circuit :
    (∀ n p, register_user none n p = (.error dbUnavailable, none)) ∧
    (∀ p, login_user none p = (.error dbUnavailable, none)) ∧
    (∀ uid, get_user none uid = (.error dbUnavailable, none)) ∧
    (∀ uid amt, topup_wallet none uid amt = (.error dbUnavailable, none)) ∧
    (∀ uid lim, list_transactions none uid lim = (.error dbUnavailable, none)) ∧
    (list_matches none = (.error dbUnavailable, none)) ∧
    (∀ uid, list_bets none uid = (.error dbUnavailable, none)) ∧
    (∀ uid stake sels, place_bet none uid stake sels = (.error dbUnavailable, none)) :=
  ⟨fun _ _ => rfl, fun _ => rfl, fun _ => rfl, fun _ _ => rfl, fun _ _ => rfl,
   rfl, fun _ => rfl, fun _ _ _ => rfl⟩

/-- C9: PlaceBet with stake exactly equal to the balance succeeds (the
check is the strict `balance < stake`), returning balance 0 and
persisting balance 0 on the user. -/
theorem place_bet_stake_eq_balance (db : DB) (oid : Nat) (u : User)
    (stake : ℚ) (sels : List BetSelection) (hstake : 0 < stake)
    (hu : findUser db oid = some u) (hbal : u.balance = stake)
    (hne : sels ≠ []) (hodds : ∀ s ∈ sels, 1 < s.odds) :
    (place_bet (some db) (.valid oid) stake sels).1 =
      .ok ⟨db.nextId, round2 (stake * (sels.map BetSelection.odds).prod), 0⟩ ∧
    ∃ db', (place_bet (some db) (.valid oid) stake sels).2 = some db' ∧
      db'.users = (setBalance db oid 0).users := by
  have hblt : ¬u.balance < stake := by rw [hbal]; exact lt_irrefl stake
  have heq := place_bet_ok db oid u stake sels hu hne hodds hblt
  have h0 : round2 (u.balance - stake) = 0 := by
    rw [hbal, sub_self]
    decide
  rw [h0] at heq
  refine ⟨by rw [heq], ?_⟩
  refine ⟨_, by rw [heq], ?_⟩
  rfl

/-- C9 (witness): balance 10, stake 10, one leg of odds 2: the bet is
accepted and the returned balance is 0. -/
theorem place_bet_stake_eq_balance_witness :
    (place_bet (some ⟨[⟨1, "a", "p", 10, true⟩], [], [], [], 2⟩) (.valid 1) 10
      [selA]).1 = .ok ⟨2, 20, 0⟩ :=
  (place_bet_stake_eq_balance ⟨[⟨1, "a", "p", 10, true⟩], [], [], [], 2⟩ 1
    ⟨1, "a", "p", 10, true⟩ 10 [selA] (by decide) (by decide) (by decide)
    (by decide) (by decide)).1.trans (by decide)

/-- C10: ListTransactions with limit 0 passes 0 through to the datastore
cursor, where it means "no limit": the handler returns all of the user's
rows (in `created_at`-descending order), not zero rows. -/
theorem list_transactions_limit_zero (db : DB) (uid : Nat) :
    (list_transactions (some db) uid 0).1 =
      .ok ((db.txs.filter (fun t => t.user_id = uid)).reverse) ∧
    (list_transactions (some db) uid 0).2 = some db := by
  constructor <;> simp [list_transactions, cursorLimit]

end YehagerBet
